import Mathlib

/-!
# ArchGuard analyzer — shallow embedding and verification

A shallow embedding of `src/analyzer.py`, a single-file architecture
conformance checker, together with theorems settling the specification
claims about it.

Modelling conventions:
* A file path is a list of its components (`pathlib` parts), already
  normalised ("" and "." components never occur in paths discovered by
  `Path(".").rglob`).
* Python's `ast` module is modelled by the inductive `Stmt`: `imp` is an
  `ast.Import` node (one dotted name per alias), `impFrom` an
  `ast.ImportFrom` node (`none` module = relative import `from . import y`),
  `compound` any compound statement carrying a nested statement body
  (`if`/`for`/`def`/... — only statement children matter, since import
  nodes are statements), `other` any other simple statement.  `ast.walk`
  is breadth-first (a FIFO queue seeded with the root): `walk` below.
* `ast.parse` raising `SyntaxError` is modelled by a file's `tree` field
  being `Except.error ()`.
* `pathlib.PurePath.match` is modelled by `pathMatch`: component-wise
  `fnmatch` matching, anchored at the right end of the path for relative
  patterns; `**` receives no special treatment and therefore spans exactly
  one component, exactly as in CPython's `PurePath.match`.  The modelled
  `fnmatch` component language covers literals, `?` and `*` (the
  character-class form `[...]` is not used by any claim).  Python raises
  `ValueError` on an empty pattern; the model conservatively returns
  `false` there (no rule in any claim has an empty or "." pattern).
* Python `dict` construction from a key/value sequence (dict
  comprehension or JSON object parsing) is modelled by `pyDict`:
  insertion-ordered, a duplicate key keeps its first position but
  receives the last-written value.
-/

/-- Python `ast` statements, restricted to the shape the analyzer inspects. -/
inductive Stmt where
  | imp (names : List String) : Stmt
  | impFrom (module : Option String) (names : List String) : Stmt
  | compound (body : List Stmt) : Stmt
  | other : Stmt

mutual

/-- Number of statement nodes in a statement (itself included). -/
def sizeS : Stmt → Nat
  | .compound body => 1 + sizeL body
  | _ => 1

/-- Number of statement nodes in a statement list. -/
def sizeL : List Stmt → Nat
  | [] => 0
  | s :: rest => sizeS s + sizeL rest

end

/-- Statement children of a statement node (`ast.iter_child_nodes`,
restricted to statements: expression children can hold no import nodes). -/
def Stmt.children : Stmt → List Stmt
  | .compound body => body
  | _ => []

theorem sizeL_append (a b : List Stmt) : sizeL (a ++ b) = sizeL a + sizeL b := by
  induction a with
  | nil => simp [sizeL]
  | cons s rest ih => simp [sizeL, ih]; omega

theorem sizeS_children (s : Stmt) : sizeL s.children + 1 = sizeS s := by
  cases s
  case compound body => simp [Stmt.children, sizeS]; omega
  all_goals rfl

/-- Breadth-first traversal engine.  The fuel argument is exactly the node
count of the queue, which decreases by one at each step, so the zero-fuel
branch is unreachable on the fuel `walk` supplies; it makes the recursion
structural (and hence kernel-computable). -/
def walkAux : Nat → List Stmt → List Stmt
  | _, [] => []
  | 0, _ :: _ => []
  | fuel + 1, s :: rest => s :: walkAux fuel (rest ++ s.children)

/-- `ast.walk`: breadth-first traversal of a statement forest.  (Python
seeds the queue with the `Module` node itself; the module node carries
no name of its own, so starting from its body is observationally
identical for the extractor.) -/
def walk (todo : List Stmt) : List Stmt := walkAux (sizeL todo) todo

theorem walk_nil : walk [] = [] := rfl

theorem walk_cons (s : Stmt) (rest : List Stmt) :
    walk (s :: rest) = s :: walk (rest ++ s.children) := by
  have h : sizeL (s :: rest) = sizeL (rest ++ s.children) + 1 := by
    have := sizeS_children s
    simp [sizeL, sizeL_append]
    omega
  simp only [walk, h, walkAux, sizeL_append]

/-- Python `str.split(".")`: split at every dot, keeping empty groups
(`"".split(".") == [""]`, so the result is never empty).  Implemented over
the character list so it is kernel-computable. -/
def splitDots (s : List Char) : List (List Char) :=
  s.foldr
    (fun c acc =>
      if c = '.' then [] :: acc
      else
        match acc with
        | [] => [[c]]
        | g :: gs => (c :: g) :: gs)
    [[]]

/-- First dotted-path segment: `name.split(".")[0]`. -/
def firstSeg (s : String) : String := String.mk ((splitDots s.toList).headD [])

/-- Last dotted-path segment: `name.split(".")[-1]`. -/
def lastSeg (s : String) : String := String.mk ((splitDots s.toList).getLastD [])

/-- The module names one visited node contributes (the body of the
`isinstance` dispatch in the walk loop, lines 41–45 of the source):
an `Import` node yields the first dotted segment of each alias name; an
`ImportFrom` node with a present (truthy) module yields the last dotted
segment of the module; everything else yields nothing. -/
def stmtNames : Stmt → List String
  | .imp names => names.map firstSeg
  | .impFrom (some m) _ => [lastSeg m]
  | _ => []

/-- The `imports` list the analyzer collects for one parsed file:
every walked node's contribution, in `ast.walk` (breadth-first) order. -/
def extractImports (tree : List Stmt) : List String :=
  (walk tree).flatMap stmtNames

/-- `fnmatch`-style matching of one glob component against one path
component, over character lists: `*` matches any (possibly empty)
character sequence, `?` any single character, any other character itself.
The `*` case is phrased as "some suffix of the rest matches the remaining
pattern", which keeps the recursion structural in the pattern. -/
def fmatch : List Char → List Char → Bool
  | [], s => s.isEmpty
  | '*' :: ps, s => s.tails.any fun t => fmatch ps t
  | '?' :: ps, s =>
    match s with
    | [] => false
    | _ :: cs => fmatch ps cs
  | p :: ps, s =>
    match s with
    | [] => false
    | c :: cs => p == c && fmatch ps cs

/-- `fnmatch` on strings: one pattern component against one path component. -/
def fnmatchStr (pat s : String) : Bool := fmatch pat.toList s.toList

/-- Split a pattern string into its `pathlib` parts: split on `/`, and
drop empty and `.` components exactly as `PurePath` normalisation does. -/
def parsePattern (pat : String) : List String :=
  ((pat.toList.foldr
      (fun c acc =>
        if c = '/' then [] :: acc
        else
          match acc with
          | [] => [[c]]
          | g :: gs => (c :: g) :: gs)
      [[]]).map String.mk).filter fun c => ¬ (c = "" ∨ c = ".")

/-- `pathlib.PurePath.match` for a relative pattern: the pattern's parts
are matched component-wise, by `fnmatch`, against the final parts of the
path (matching is done from the right).  A pattern with more parts than
the path never matches; Python raises `ValueError` on an empty pattern,
modelled conservatively as no match. -/
def pathMatch (pat : List String) (parts : List String) : Bool :=
  if pat.isEmpty then false
  else if pat.length ≤ parts.length then
    ((parts.drop (parts.length - pat.length)).zip pat).all
      fun sp => fnmatchStr sp.2 sp.1
  else false

/-- Python `dict` update `m[k] = v` on an insertion-ordered association
list: an existing key keeps its position and receives the new value, a
fresh key is appended. -/
def dictUpd {β : Type} (m : List (String × β)) (k : String) (v : β) :
    List (String × β) :=
  if m.any (fun p => p.1 == k) then
    m.map fun p => if p.1 == k then (k, v) else p
  else m ++ [(k, v)]

/-- Python `dict` built from a key/value sequence (dict comprehension, or
a parsed JSON object): processed left to right with `dictUpd`, so a
duplicate key keeps its first position but carries its last value. -/
def pyDict {β : Type} (entries : List (String × β)) : List (String × β) :=
  entries.foldl (fun m e => dictUpd m e.1 e.2) []

/-- Python `dict.get(k, default)`. -/
def dictGet {β : Type} (m : List (String × β)) (k : String) (default : β) : β :=
  match m.find? (fun p => p.1 == k) with
  | some p => p.2
  | none => default

/-- The architecture model as loaded from `architecture.json`:
`layers` lists `(layer name, allowed target layers)` in declaration order
(the source of `layers_rules`), `components` lists `(folder glob pattern,
layer)` in declaration order (the source of `comp_map`). -/
structure ArchModel where
  layers : List (String × List String)
  components : List (String × String)

/-- `layers_rules`: the dict from layer name to its allow-list. -/
def layers_rules (m : ArchModel) : List (String × List String) := pyDict m.layers

/-- `comp_map`: the dict from folder pattern to layer, built by a dict
comprehension over the declared components. -/
def comp_map (m : ArchModel) : List (String × String) := pyDict m.components

/-- `layers_rules.get(layer, [])`: the allow-list of a layer, empty for a
layer name not declared in the model. -/
def allowedTargets (m : ArchModel) (layer : String) : List String :=
  dictGet (layers_rules m) layer []

/-- First-match-wins scan of an ordered rule list: the layer of the first
pattern matching the path, `"Unknown"` when none does (the loop body of
`layer_of` in the source). -/
def firstMatchLayer : List (String × String) → List String → String
  | [], _ => "Unknown"
  | (pat, layer) :: rest, parts =>
    if pathMatch (parsePattern pat) parts then layer
    else firstMatchLayer rest parts

/-- `layer_of(path)`: classify a path against the component rules of the
model, i.e. against the entries of the `comp_map` dict in their insertion
order. -/
def layer_of (m : ArchModel) (parts : List String) : String :=
  firstMatchLayer (comp_map m) parts

/-- A discovered source file: its path parts (relative to the project
root, as produced by `Path(".").rglob("*.py")`) and the outcome of
`ast.parse` on its text (`Except.error ()` models a `SyntaxError`). -/
structure PyFile where
  parts : List String
  tree : Except Unit (List Stmt)

/-- `py.name`: the final path component. -/
def fileName (f : PyFile) : String := f.parts.getLastD ""

/-- `py.with_name(n)`: replace the final path component. -/
def withName (parts : List String) (n : String) : List String :=
  parts.dropLast ++ [n]

/-- One dependency record `(src_layer, tgt_layer, py.name, imp)` as
appended to `deps` (and, when offending, to `violations`). -/
structure ImportEdge where
  srcLayer : String
  tgtLayer : String
  srcName : String
  imported : String
deriving DecidableEq, Repr

/-- The violation test of line 51: `tgt_layer not in layers_rules.get(src_layer, [])`. -/
def isViolation (m : ArchModel) (e : ImportEdge) : Bool :=
  ¬ e.tgtLayer ∈ allowedTargets m e.srcLayer

/-- The edges one parsed file contributes, in import order: the target
path is synthesised as `py.with_name(imp + ".py")` — the importing file's
own directory with the imported name as a same-extension sibling — and
both endpoint paths are classified by `layer_of`. -/
def fileEdges (m : ArchModel) (f : PyFile) (tree : List Stmt) : List ImportEdge :=
  (extractImports tree).map fun imp =>
    { srcLayer := layer_of m f.parts
      tgtLayer := layer_of m (withName f.parts (imp ++ ".py"))
      srcName := fileName f
      imported := imp }

/-- The scanning loop of lines 31–52, with `acc = (deps, violations)` the
two accumulating lists: a file named `analyzer.py` is skipped before
anything else; otherwise the file is parsed — a parse failure propagates
and aborts the whole run, exactly as the uncaught `SyntaxError` of
line 36 does — and each extracted import appends one edge to `deps` and,
when the target layer is not allowed from the source layer, the same
record to `violations`. -/
def analyzeFrom (m : ArchModel) (acc : List ImportEdge × List ImportEdge) :
    List PyFile → Except Unit (List ImportEdge × List ImportEdge)
  | [] => .ok acc
  | f :: rest =>
    if fileName f = "analyzer.py" then analyzeFrom m acc rest
    else
      match f.tree with
      | .error e => .error e
      | .ok t =>
        let es := fileEdges m f t
        analyzeFrom m (acc.1 ++ es, acc.2 ++ es.filter (isViolation m)) rest

/-- The whole run over the discovered file universe: the final
`(deps, violations)` pair, or the uncaught parse failure. -/
def analyze (m : ArchModel) (files : List PyFile) :
    Except Unit (List ImportEdge × List ImportEdge) :=
  analyzeFrom m ([], []) files

/-- Lines 56–61: the process exit code set from the violation list. -/
def exit_code (violations : List ImportEdge) : Nat :=
  if violations.isEmpty then 0 else 1

/-- The remediation section of the HTML report (lines 123–131): the loop
appends, per violation, one suggestion built from
`layers_rules.get(src, [])` — the allowed *layer names* of the source
layer.  Modelled as the list of `(violation, allowed-layer-list)` pairs
the rendered `<li>` lines are formatted from. -/
def remediationReport (m : ArchModel) (violations : List ImportEdge) :
    List (ImportEdge × List String) :=
  violations.foldl (fun acc v => acc ++ [(v, allowedTargets m v.srcLayer)]) []

/-! ## Spec-side definitions

The following definitions are written from the specification's words, not
from the source; each exists only to be compared with the corresponding
source-derived definition above (refinement comparison). -/

/-- Modelled from the spec: a glob matcher in which a `**` pattern
component "spans directories", i.e. absorbs any number (possibly zero) of
whole path components, the reading under which "folder patterns span
directories" (§4.2); other components match by `fnmatch` and the whole
pattern must cover the whole path. -/
def specGlob : List String → List String → Bool
  | [], parts => parts.isEmpty
  | p :: ps, parts =>
    if p = "**" then parts.tails.any fun t => specGlob ps t
    else
      match parts with
      | [] => false
      | s :: rest => fnmatchStr p s && specGlob ps rest

/-- Modelled from the spec: import extraction in "textual order of
occurrence" (§4.4) — a depth-first, pre-order traversal of the statement
tree, which visits statements in the order their first lines occur in the
file.  Implemented with an explicit statement stack; the fuel is exactly
the node count, which decreases by one at each step. -/
def textualAux : Nat → List Stmt → List String
  | 0, _ => []
  | _, [] => []
  | fuel + 1, s :: rest =>
    match s with
    | .compound body => textualAux fuel (body ++ rest)
    | s' => stmtNames s' ++ textualAux fuel rest

/-- Modelled from the spec: the imports of a module in textual order. -/
def textualImports (tree : List Stmt) : List String :=
  textualAux (sizeL tree) tree

/-- Modelled from the spec: `Path.stem` — the file name without its final
suffix — used for Module Catalog entries (§3, §4.3); the spec's catalog
has no counterpart in the source. -/
def stemOf (name : String) : String :=
  let groups := splitDots name.toList
  if groups.length ≤ 1 then name
  else String.mk (List.intercalate ['.'] groups.dropLast)

/-- Modelled from the spec: the Module Catalog (§4.3) — short module name
to classified layer, built by scanning the file universe once, later
duplicate stems shadowing earlier ones. -/
def specCatalog (m : ArchModel) (files : List PyFile) : List (String × String) :=
  pyDict (files.map fun f => (stemOf (fileName f), layer_of m f.parts))

/-- Modelled from the spec: remediation candidates of a violation (§4.6) —
catalog module names whose layer is in `allowedTargets(sourceLayer)` and
which differ from the offending imported name. -/
def specRemediation (catalog : List (String × String)) (m : ArchModel)
    (v : ImportEdge) : List String :=
  (catalog.filter fun e =>
    e.2 ∈ allowedTargets m v.srcLayer ∧ ¬ e.1 = v.imported).map Prod.fst

/-- Replace an exact `**` pattern component by `*` (used to state that
`**` has no multi-segment power in the source's matcher). -/
def replStar (c : String) : String := if c = "**" then "*" else c

/-- A statement list is flat when it contains no compound statement, so
every statement — in particular every import — is at top level. -/
def isFlat (tree : List Stmt) : Bool :=
  tree.all fun s =>
    match s with
    | .compound _ => false
    | _ => true

/-! ## Structural lemmas about the run -/

/-- Every file of the universe either is skipped by name or parses. -/
def parsesAll (files : List PyFile) : Bool :=
  files.all fun f => fileName f == "analyzer.py" || f.tree.isOk

/-- Declarative form of the `deps` list the scanning loop builds. -/
def declDeps (m : ArchModel) (files : List PyFile) : List ImportEdge :=
  files.flatMap fun f =>
    if fileName f = "analyzer.py" then []
    else
      match f.tree with
      | .ok t => fileEdges m f t
      | .error _ => []

theorem analyzeFrom_eq_ok (m : ArchModel) (files : List PyFile) :
    ∀ acc, parsesAll files = true →
      analyzeFrom m acc files =
        .ok (acc.1 ++ declDeps m files,
             acc.2 ++ (declDeps m files).filter (isViolation m)) := by
  induction files with
  | nil => intro acc _; simp [analyzeFrom, declDeps]
  | cons f rest ih =>
    intro acc hp
    rw [parsesAll, List.all_cons, Bool.and_eq_true] at hp
    obtain ⟨hf, hrest⟩ := hp
    by_cases hname : fileName f = "analyzer.py"
    · simp only [analyzeFrom, hname, if_pos rfl, ite_true, declDeps,
        List.flatMap_cons, if_pos hname]
      simpa [declDeps] using ih acc hrest
    · have hok : f.tree.isOk = true := by
        rcases hf' : f.tree.isOk with _ | _
        · rw [hf'] at hf
          simp [hname] at hf
        · rfl
      obtain ⟨t, ht⟩ : ∃ t, f.tree = .ok t := by
        cases htree : f.tree with
        | error e => rw [htree] at hok; simp [Except.isOk, Except.toBool] at hok
        | ok t => exact ⟨t, rfl⟩
      simp only [analyzeFrom, hname, ite_false, if_neg hname, ht]
      rw [ih _ hrest]
      simp [declDeps, if_neg hname, ht, List.filter_append, List.append_assoc]

theorem analyzeFrom_ok_parses (m : ArchModel) (files : List PyFile) :
    ∀ acc p, analyzeFrom m acc files = .ok p → parsesAll files = true := by
  induction files with
  | nil => intro acc p _; rfl
  | cons f rest ih =>
    intro acc p h
    rw [parsesAll, List.all_cons, Bool.and_eq_true]
    by_cases hname : fileName f = "analyzer.py"
    · rw [analyzeFrom, if_pos hname] at h
      exact ⟨by simp [hname], ih _ _ h⟩
    · rw [analyzeFrom, if_neg hname] at h
      cases htree : f.tree with
      | error e => rw [htree] at h; exact absurd h (by simp)
      | ok t =>
        rw [htree] at h
        refine ⟨by simp [htree, Except.isOk, Except.toBool], ih _ _ h⟩

/-- A successful run yields exactly the declarative `deps`, and
`violations` is its filtering by the per-edge violation test. -/
theorem analyze_ok_iff (m : ArchModel) (files : List PyFile)
    (deps viols : List ImportEdge) (h : analyze m files = .ok (deps, viols)) :
    deps = declDeps m files ∧ viols = (declDeps m files).filter (isViolation m) := by
  have hp := analyzeFrom_ok_parses m files ([], []) (deps, viols) h
  have he := analyzeFrom_eq_ok m files ([], []) hp
  rw [analyze] at h
  rw [h] at he
  simp only [List.nil_append, Except.ok.injEq, Prod.mk.injEq] at he
  exact ⟨he.1, he.2⟩

/-! ## Dictionary lemmas -/

theorem dictUpd_fresh {β : Type} (m : List (String × β)) (k : String) (v : β)
    (h : k ∉ m.map Prod.fst) : dictUpd m k v = m ++ [(k, v)] := by
  rw [dictUpd, if_neg]
  intro hany
  rw [List.any_eq_true] at hany
  obtain ⟨p, hp, hpk⟩ := hany
  rw [beq_iff_eq] at hpk
  exact h (hpk ▸ List.mem_map_of_mem Prod.fst hp)

theorem pyDict_fold_nodup {β : Type} (l : List (String × β)) :
    ∀ acc : List (String × β), ((acc ++ l).map Prod.fst).Nodup →
      List.foldl (fun m e => dictUpd m e.1 e.2) acc l = acc ++ l := by
  induction l with
  | nil => intro acc _; simp
  | cons e rest ih =>
    intro acc hnd
    have hk : e.1 ∉ acc.map Prod.fst := by
      rw [List.map_append, List.nodup_append] at hnd
      intro hmem
      exact hnd.2.2 hmem (by simp)
    rw [List.foldl_cons, dictUpd_fresh acc e.1 e.2 hk]
    have : ((acc ++ [(e.1, e.2)]) ++ rest).map Prod.fst
        = (acc ++ e :: rest).map Prod.fst := by simp
    rw [ih (acc ++ [(e.1, e.2)]) (this ▸ hnd)]
    simp

/-- A components list with pairwise-distinct folder patterns survives the
dict comprehension unchanged. -/
theorem pyDict_nodup {β : Type} (l : List (String × β))
    (h : (l.map Prod.fst).Nodup) : pyDict l = l := by
  have := pyDict_fold_nodup l [] (by simpa using h)
  simpa [pyDict] using this

theorem dictUpd_mem {β : Type} (m : List (String × β)) (k : String) (v : β)
    (p : String × β) (h : p ∈ dictUpd m k v) :
    p.1 ∈ m.map Prod.fst ∨ p.1 = k := by
  rw [dictUpd] at h
  by_cases hany : m.any (fun q => q.1 == k)
  · rw [if_pos hany, List.mem_map] at h
    obtain ⟨q, hq, hqe⟩ := h
    by_cases hk : q.1 = k
    · rw [if_pos (by simpa using hk)] at hqe
      right; rw [← hqe]
    · rw [if_neg (by simpa using hk)] at hqe
      left; exact hqe ▸ List.mem_map_of_mem Prod.fst hq
  · rw [if_neg hany, List.mem_append] at h
    rcases h with h | h
    · exact Or.inl (List.mem_map_of_mem Prod.fst h)
    · right; simp at h; rw [h]

theorem pyDict_mem_keys {β : Type} (l : List (String × β)) :
    ∀ acc p, p ∈ List.foldl (fun m e => dictUpd m e.1 e.2) acc l →
      p.1 ∈ acc.map Prod.fst ∨ p.1 ∈ l.map Prod.fst := by
  induction l with
  | nil => intro acc p h; simp at h; exact Or.inl (List.mem_map_of_mem Prod.fst h)
  | cons e rest ih =>
    intro acc p h
    rw [List.foldl_cons] at h
    rcases ih (dictUpd acc e.1 e.2) p h with h' | h'
    · rw [List.mem_map] at h'
      obtain ⟨q, hq, hqe⟩ := h'
      rcases dictUpd_mem acc e.1 e.2 q hq with h'' | h''
      · exact Or.inl (hqe ▸ h'')
      · right; simp [← hqe, h'']
    · right; simp [h']

/-- Every entry of a Python dict carries a key that occurred in the
sequence the dict was built from. -/
theorem pyDict_keys {β : Type} (l : List (String × β)) (p : String × β)
    (h : p ∈ pyDict l) : p.1 ∈ l.map Prod.fst := by
  rcases pyDict_mem_keys l [] p h with h' | h'
  · simp at h'
  · exact h'

/-! ## Matcher lemmas -/

theorem firstMatchLayer_unknown (l : List (String × String)) (parts : List String)
    (h : ∀ e ∈ l, pathMatch (parsePattern e.1) parts = false) :
    firstMatchLayer l parts = "Unknown" := by
  induction l with
  | nil => rfl
  | cons e rest ih =>
    rw [firstMatchLayer.eq_def]
    simp only
    rw [if_neg (by simp [h e (by simp)])]
    exact ih fun e' he' => h e' (by simp [he'])

/-- A `*` immediately followed by another `*` is redundant: a `**`
component constrains exactly as much as a `*` component. -/
theorem fmatch_star (ps : List Char) (s : List Char) :
    fmatch ('*' :: '*' :: ps) s = fmatch ('*' :: ps) s := by
  rw [Bool.eq_iff_iff]
  simp only [fmatch, List.any_eq_true, List.mem_tails]
  constructor
  · rintro ⟨t, hts, u, hut, hu⟩
    exact ⟨u, hut.trans hts, hu⟩
  · rintro ⟨u, hus, hu⟩
    exact ⟨s, List.suffix_refl s, u, hus, hu⟩

theorem fnmatchStr_replStar (p s : String) :
    fnmatchStr (replStar p) s = fnmatchStr p s := by
  rw [replStar]
  by_cases h : p = "**"
  · rw [if_pos h, h]
    exact (fmatch_star [] s.toList).symm
  · rw [if_neg h]

theorem all_fnmatch_repl (l : List (String × String)) :
    (l.all fun sp => fnmatchStr (replStar sp.2) sp.1)
      = l.all fun sp => fnmatchStr sp.2 sp.1 := by
  induction l with
  | nil => rfl
  | cons a t ih => simp only [List.all_cons, ih, fnmatchStr_replStar]

theorem pathMatch_replStar (pat parts : List String) :
    pathMatch (pat.map replStar) parts = pathMatch pat parts := by
  cases pat with
  | nil => rfl
  | cons p ps =>
    rw [pathMatch, pathMatch]
    simp only [List.map_cons, List.isEmpty_cons, List.length_cons,
      List.length_map, Bool.false_eq_true, if_false]
    by_cases hlen : ps.length + 1 ≤ parts.length
    · rw [if_pos hlen, if_pos hlen, ← List.map_cons replStar p ps,
        List.zip_map_right, List.all_map]
      have hfun : ((fun (sp : String × String) => fnmatchStr sp.2 sp.1)
          ∘ Prod.map id replStar)
          = fun (sp : String × String) => fnmatchStr (replStar sp.2) sp.1 := by
        funext sp
        cases sp
        rfl
      rw [hfun, all_fnmatch_repl]
    · rw [if_neg hlen, if_neg hlen]

/-! ## Walk lemmas -/

/-- Removing a statement that has no children and contributes no names
from any position of the breadth-first queue leaves the extracted name
sequence unchanged. -/
theorem walkNames_removal : ∀ (q1 q2 : List Stmt) (ns : List String),
    (walk (q1 ++ Stmt.impFrom none ns :: q2)).flatMap stmtNames
      = (walk (q1 ++ q2)).flatMap stmtNames
  | [], q2, ns => by
    rw [List.nil_append, List.nil_append, walk_cons]
    simp [Stmt.children, stmtNames]
  | t :: q1', q2, ns => by
    rw [List.cons_append, walk_cons, List.cons_append, walk_cons,
      List.flatMap_cons, List.flatMap_cons]
    have h1 : (q1' ++ Stmt.impFrom none ns :: q2) ++ t.children
        = q1' ++ Stmt.impFrom none ns :: (q2 ++ t.children) := by simp
    have h2 : (q1' ++ q2) ++ t.children = q1' ++ (q2 ++ t.children) := by simp
    rw [h1, h2, walkNames_removal q1' (q2 ++ t.children) ns]
termination_by q1 q2 => sizeL q1 + sizeL q2
decreasing_by
  have := sizeS_children t
  simp [sizeL, sizeL_append]
  omega

/-- On a flat statement list, breadth-first traversal is the identity. -/
theorem walk_flat (tree : List Stmt) (h : isFlat tree = true) : walk tree = tree := by
  induction tree with
  | nil => rfl
  | cons s rest ih =>
    rw [isFlat, List.all_cons, Bool.and_eq_true] at h
    have hc : s.children = [] := by
      cases s with
      | compound body => simp at h
      | imp ns => rfl
      | impFrom m ns => rfl
      | other => rfl
    rw [walk_cons, hc, List.append_nil, ih h.2]

theorem extract_flat (tree : List Stmt) (h : isFlat tree = true) :
    extractImports tree = tree.flatMap stmtNames := by
  rw [extractImports, walk_flat tree h]

theorem textualAux_flat (tree : List Stmt) : ∀ fuel, isFlat tree = true →
    sizeL tree ≤ fuel → textualAux fuel tree = tree.flatMap stmtNames := by
  induction tree with
  | nil => intro fuel _ _; cases fuel <;> rfl
  | cons s rest ih =>
    intro fuel hflat hfuel
    rw [isFlat, List.all_cons, Bool.and_eq_true] at hflat
    have hs1 : sizeS s = 1 := by
      cases s with
      | compound body => simp at hflat
      | imp ns => rfl
      | impFrom m ns => rfl
      | other => rfl
    rw [sizeL, hs1] at hfuel
    obtain ⟨f, rfl⟩ : ∃ f, fuel = f + 1 := ⟨fuel - 1, by omega⟩
    rw [List.flatMap_cons, ← ih f hflat.2 (by omega)]
    cases s with
    | compound body => simp at hflat
    | imp ns => rfl
    | impFrom m ns => cases m <;> rfl
    | other => rfl

/-- On a flat module — every import at top level — the spec's textual
extraction order agrees with the flatMap over the statement list. -/
theorem textual_flat (tree : List Stmt) (h : isFlat tree = true) :
    textualImports tree = tree.flatMap stmtNames :=
  textualAux_flat tree (sizeL tree) h (Nat.le_refl _)

/-- The remediation loop is pointwise: one suggestion per violation, in
order, carrying that violation's allowed-layers list. -/
theorem remediationReport_eq (m : ArchModel) (violations : List ImportEdge) :
    remediationReport m violations
      = violations.map fun v => (v, allowedTargets m v.srcLayer) := by
  rw [remediationReport]
  suffices h : ∀ acc, violations.foldl
      (fun acc v => acc ++ [(v, allowedTargets m v.srcLayer)]) acc
      = acc ++ violations.map fun v => (v, allowedTargets m v.srcLayer) by
    simpa using h []
  induction violations with
  | nil => intro acc; simp
  | cons v rest ih => intro acc; simp [ih]

deriving instance DecidableEq for Except

/-! ## Concrete instances used by witnesses and counterexamples -/

/-- A small three-layer model: `UI` may depend on `Domain`, `Domain` on
`Infra`, `Infra` on nothing; one folder rule per layer. -/
def exModel : ArchModel :=
  { layers := [("UI", ["Domain"]), ("Domain", ["Infra"]), ("Infra", [])]
    components := [("ui/*.py", "UI"), ("domain/*.py", "Domain"), ("infra/*.py", "Infra")] }

/-- `ui/view.py`, importing `helper`. -/
def exView : PyFile := ⟨["ui", "view.py"], .ok [Stmt.imp ["helper"]]⟩

/-- `domain/service.py`, importing nothing. -/
def exService : PyFile := ⟨["domain", "service.py"], .ok []⟩

/-- `broken.py`, which fails to parse. -/
def exBad : PyFile := ⟨["broken.py"], .error ()⟩

/-- `tools/analyzer.py`: a project file that shares the engine's
basename without being the engine's entry point. -/
def exTool : PyFile := ⟨["tools", "analyzer.py"], .ok [Stmt.imp ["helper"]]⟩

/-- The edge `ui/view.py → helper`: the synthesized target
`ui/helper.py` classifies as `UI`, and `UI → UI` is not allowed. -/
def exEdge : ImportEdge := ⟨"UI", "UI", "view.py", "helper"⟩

/-- A model whose two component rules carry the same folder pattern. -/
def dupModel : ArchModel := ⟨[], [("a/*.py", "L1"), ("a/*.py", "L2")]⟩

/-- A model with one multi-segment-wildcard component rule. -/
def starModel : ArchModel := ⟨[], [("a/**/*.py", "Core")]⟩

/-- A module with one import nested under a compound statement occurring
textually before a top-level import. -/
def nestedMod : List Stmt :=
  [Stmt.compound [Stmt.imp ["nested_a"]], Stmt.imp ["top_b"]]

/-- A flat module with two identical import statements. -/
def dupMod : List Stmt := [Stmt.imp ["x"], Stmt.imp ["x"]]

/-- `ui/dup.py`, containing the duplicated import. -/
def exDupFile : PyFile := ⟨["ui", "dup.py"], .ok dupMod⟩

/-- The edge `ui/dup.py → x` (present twice in that file's run output). -/
def exDupEdge : ImportEdge := ⟨"UI", "UI", "dup.py", "x"⟩

/-! ## Claims -/

/-- C1: for every edge a run produces, the edge is reported as a
violation if and only if its target layer is not in the source layer's
allow-list, where the allow-list of a layer name not declared in the
model is the empty list. -/
theorem c1_violation_iff_disallowed (m : ArchModel) (files : List PyFile)
    (deps viols : List ImportEdge)
    (h : analyze m files = .ok (deps, viols)) :
    (∀ e ∈ deps, (e ∈ viols ↔ ¬ e.tgtLayer ∈ allowedTargets m e.srcLayer))
    ∧ ∀ l, (∀ p ∈ m.layers, ¬ p.1 = l) → allowedTargets m l = [] := by
  obtain ⟨hd, hv⟩ := analyze_ok_iff m files deps viols h
  constructor
  · intro e he
    rw [hv, List.mem_filter]
    constructor
    · intro h'
      have := h'.2
      rw [isViolation] at this
      simpa using this
    · intro h'
      exact ⟨hd ▸ he, by rw [isViolation]; simpa using h'⟩
  · intro l hl
    rw [allowedTargets, dictGet]
    have hfind : (layers_rules m).find? (fun p => p.1 == l) = none := by
      rw [List.find?_eq_none]
      intro p hp
      have hk := pyDict_keys m.layers p hp
      rw [List.mem_map] at hk
      obtain ⟨q, hq, hqe⟩ := hk
      intro hbeq
      rw [beq_iff_eq] at hbeq
      exact hl q hq (hqe.trans hbeq)
    rw [hfind]

theorem c1_violation_iff_disallowed_witness :
    analyze exModel [exView, exService] = .ok ([exEdge], [exEdge])
    ∧ (exEdge ∈ [exEdge] ↔ ¬ exEdge.tgtLayer ∈ allowedTargets exModel exEdge.srcLayer) :=
  ⟨by decide,
   (c1_violation_iff_disallowed exModel [exView, exService] [exEdge] [exEdge]
      (by decide)).1 exEdge (by decide)⟩

/-- C2 (the code contradicts the claim): a universe containing a single
unparsable file makes the whole run abort with the propagated parse
error — no `FileError` record, no edges and no violations at all, not
even from the other, well-formed files — whereas the very same universe
without the broken file analyzes fine.  The uncaught `SyntaxError` of
`ast.parse` (line 36) is the cause. -/
theorem c2_parse_failure_aborts_run :
    analyze exModel [exBad, exView, exService] = .error ()
    ∧ analyze exModel [exView, exService] = .ok ([exEdge], [exEdge]) :=
  ⟨by decide, by decide⟩

/-- C3 (counterexample): in a concrete run with one violation, the
remediation attached by the report is the source layer's allowed *layer
names* (`["Domain"]`), not the module names from the spec's catalog whose
layer is allowed (`["service"]`); `"Domain"` is not even a catalog module
name. -/
theorem c3_remediation_cex :
    analyze exModel [exView, exService] = .ok ([exEdge], [exEdge])
    ∧ remediationReport exModel [exEdge] = [(exEdge, ["Domain"])]
    ∧ specCatalog exModel [exView, exService] = [("view", "UI"), ("service", "Domain")]
    ∧ specRemediation (specCatalog exModel [exView, exService]) exModel exEdge = ["service"]
    ∧ ¬ (["Domain"] : List String) = ["service"]
    ∧ ¬ "Domain" ∈ (specCatalog exModel [exView, exService]).map Prod.fst :=
  ⟨by decide, by decide, by decide, by decide, by decide, by decide⟩

/-- C3 (amended): for every violation the report carries, as remediation
context, the source layer's allow-list of layer names —
`layers_rules.get(src, [])`, hence empty for an undeclared source layer —
one entry per violation in order; no catalog-based module-name candidates
are computed. -/
theorem c3_remediation_lists_allowed_layers (m : ArchModel)
    (viols : List ImportEdge) :
    remediationReport m viols
      = viols.map fun v => (v, allowedTargets m v.srcLayer) :=
  remediationReport_eq m viols

/-- C4 (counterexample): the rule pattern `a/**/*.py` spans the path
`a/b/c/d.py` under the spec's multi-segment reading of `**` (`specGlob`),
yet `layer_of` classifies that path as `Unknown`, not as the rule's layer
`Core`. -/
theorem c4_doublestar_cex :
    starModel.components = [("a/**/*.py", "Core")]
    ∧ specGlob (parsePattern "a/**/*.py") ["a", "b", "c", "d.py"] = true
    ∧ layer_of starModel ["a", "b", "c", "d.py"] = "Unknown"
    ∧ ¬ ("Unknown" : String) = "Core" :=
  ⟨rfl, by decide, by decide, by decide⟩

/-- C4 (amended): a `**` pattern component has no multi-segment power in
the matcher the classifier uses: replacing every exact `**` component by
`*` changes no matching verdict, i.e. `**` constrains exactly one path
component, and spanning arises only from the right-anchored suffix
semantics of `pathMatch`, never from `**` itself. -/
theorem c4_doublestar_single_segment (pat parts : List String) :
    pathMatch (pat.map replStar) parts = pathMatch pat parts :=
  pathMatch_replStar pat parts

/-- C5 (counterexample): extraction order is `ast.walk` (breadth-first)
order, not textual order — a module whose textually first import sits
inside a compound statement yields `["top_b", "nested_a"]` while its
textual order is `["nested_a", "top_b"]`. -/
theorem c5_walk_order_cex :
    extractImports nestedMod = ["top_b", "nested_a"]
    ∧ textualImports nestedMod = ["nested_a", "top_b"]
    ∧ ¬ extractImports nestedMod = textualImports nestedMod :=
  ⟨by decide, by decide, by decide⟩

/-- C5 (amended): the extractor yields the first dotted segment of each
direct-import name and the last dotted segment of the `from`-module, with
duplicates preserved, in breadth-first tree order; on a module whose
statements are all at top level (no compound statement) this coincides
with textual order of occurrence. -/
theorem c5_flat_extraction_textual (tree : List Stmt)
    (h : isFlat tree = true) :
    extractImports tree = textualImports tree
    ∧ extractImports tree = tree.flatMap stmtNames := by
  rw [extract_flat tree h, textual_flat tree h]
  exact ⟨rfl, rfl⟩

theorem c5_flat_extraction_textual_witness :
    isFlat dupMod = true
    ∧ (extractImports dupMod = textualImports dupMod
       ∧ extractImports dupMod = dupMod.flatMap stmtNames)
    ∧ extractImports dupMod = ["x", "x"]
    ∧ analyze exModel [exDupFile]
        = .ok ([exDupEdge, exDupEdge], [exDupEdge, exDupEdge]) :=
  ⟨by decide, c5_flat_extraction_textual dupMod (by decide), by decide, by decide⟩

/-- C6 (counterexample): two rules with the identical pattern `a/*.py`
both match `a/x.py`; the claim demands the earlier-declared layer `L1`,
but the dict comprehension collapses the two rules and the classifier
returns the later-declared `L2`. -/
theorem c6_duplicate_pattern_cex :
    dupModel.components = [("a/*.py", "L1"), ("a/*.py", "L2")]
    ∧ pathMatch (parsePattern "a/*.py") ["a", "x.py"] = true
    ∧ layer_of dupModel ["a", "x.py"] = "L2"
    ∧ ¬ ("L2" : String) = "L1" :=
  ⟨rfl, by decide, by decide, by decide⟩

/-- C6 (amended): when the declared component rules carry pairwise
distinct patterns, classification is the first-match-wins scan of the
rules in declaration order; and — duplicates or not — a path matching no
declared pattern classifies as `Unknown`. -/
theorem c6_first_match_wins (m : ArchModel) (parts : List String)
    (h : (m.components.map Prod.fst).Nodup) :
    layer_of m parts = firstMatchLayer m.components parts
    ∧ ((∀ r ∈ m.components, pathMatch (parsePattern r.1) parts = false) →
        layer_of m parts = "Unknown") := by
  constructor
  · rw [layer_of]
    show firstMatchLayer (pyDict m.components) parts = _
    rw [pyDict_nodup m.components h]
  · intro hnone
    rw [layer_of]
    apply firstMatchLayer_unknown
    intro e he
    have hk := pyDict_keys m.components e he
    rw [List.mem_map] at hk
    obtain ⟨q, hq, hqe⟩ := hk
    rw [← hqe]
    exact hnone q hq

theorem c6_first_match_wins_witness :
    (exModel.components.map Prod.fst).Nodup
    ∧ layer_of exModel ["ui", "view.py"]
        = firstMatchLayer exModel.components ["ui", "view.py"]
    ∧ layer_of exModel ["docs", "readme.py"] = "Unknown" :=
  ⟨by decide,
   (c6_first_match_wins exModel ["ui", "view.py"] (by decide)).1,
   (c6_first_match_wins exModel ["docs", "readme.py"] (by decide)).2 (by decide)⟩

/-- C7: the exit signal is success exactly when the violation list is
empty, failure exactly when it is not, and it is the boolean image of the
violation count alone. -/
theorem c7_exit_code_from_violations (viols : List ImportEdge) :
    (exit_code viols = 0 ↔ viols = [])
    ∧ (exit_code viols = 1 ↔ ¬ viols = [])
    ∧ exit_code viols = (if viols.length = 0 then 0 else 1) := by
  cases viols <;> simp [exit_code]

/-- C8: a successful run's `deps` list is exactly: for every file (those
named `analyzer.py` excluded — in the scanned universe that is the
engine's own entry point), for every extracted imported name, in order,
one edge whose target path is the importing file's own directory with
the imported name plus the `.py` extension appended, both endpoints
classified by `layer_of`. -/
theorem c8_builder_synthesizes_edges (m : ArchModel) (files : List PyFile)
    (deps viols : List ImportEdge)
    (h : analyze m files = .ok (deps, viols)) :
    deps = files.flatMap fun f =>
      if fileName f = "analyzer.py" then []
      else
        match f.tree with
        | .ok t =>
          (extractImports t).map fun imp =>
            { srcLayer := layer_of m f.parts
              tgtLayer := layer_of m (f.parts.dropLast ++ [imp ++ ".py"])
              srcName := fileName f
              imported := imp }
        | .error _ => [] := by
  rw [(analyze_ok_iff m files deps viols h).1]
  rfl

theorem c8_builder_synthesizes_edges_witness :
    analyze exModel [exView, exService] = .ok ([exEdge], [exEdge])
    ∧ [exEdge] = [exView, exService].flatMap fun f =>
        if fileName f = "analyzer.py" then []
        else
          match f.tree with
          | .ok t =>
            (extractImports t).map fun imp =>
              { srcLayer := layer_of exModel f.parts
                tgtLayer := layer_of exModel (f.parts.dropLast ++ [imp ++ ".py"])
                srcName := fileName f
                imported := imp }
          | .error _ => [] :=
  ⟨by decide,
   c8_builder_synthesizes_edges exModel [exView, exService] [exEdge] [exEdge]
     (by decide)⟩

/-- C9: a `from`-import without a module part (a relative import such as
`from . import y`) contributes no module name to the extractor, so its
presence anywhere in the top-level statement sequence changes neither the
extracted imports nor the run's edges and violations. -/
theorem c9_relative_import_invisible (xs ys : List Stmt) (ns : List String)
    (m : ArchModel) (parts : List String) :
    stmtNames (Stmt.impFrom none ns) = []
    ∧ extractImports (xs ++ Stmt.impFrom none ns :: ys) = extractImports (xs ++ ys)
    ∧ analyze m [⟨parts, .ok (xs ++ Stmt.impFrom none ns :: ys)⟩]
        = analyze m [⟨parts, .ok (xs ++ ys)⟩] := by
  have hext : extractImports (xs ++ Stmt.impFrom none ns :: ys)
      = extractImports (xs ++ ys) := walkNames_removal xs ys ns
  refine ⟨rfl, hext, ?_⟩
  simp only [analyze, analyzeFrom, fileEdges, fileName, hext]

/-- The scanning loop skips a file named `analyzer.py` at any position,
from any accumulator state, before ever consulting its parse tree. -/
theorem analyzeFrom_skip (m : ArchModel) (f : PyFile)
    (h : fileName f = "analyzer.py") :
    ∀ (xs ys : List PyFile) (acc : List ImportEdge × List ImportEdge),
      analyzeFrom m acc (xs ++ f :: ys) = analyzeFrom m acc (xs ++ ys) := by
  intro xs
  induction xs with
  | nil =>
    intro ys acc
    rw [List.nil_append, List.nil_append, analyzeFrom, if_pos h]
  | cons g rest ih =>
    intro ys acc
    rw [List.cons_append, List.cons_append, analyzeFrom, analyzeFrom]
    by_cases hg : fileName g = "analyzer.py"
    · rw [if_pos hg, if_pos hg]
      exact ih ys acc
    · rw [if_neg hg, if_neg hg]
      cases htree : g.tree with
      | error e => rfl
      | ok t => exact ih ys _

/-- C10: any file whose basename is `analyzer.py`, wherever it sits in
the scanned tree, is skipped before parsing — removing it from the
universe leaves the whole run result unchanged, even when it is a project
file distinct from the engine's entry point. -/
theorem c10_analyzer_basename_skipped (m : ArchModel) (xs ys : List PyFile)
    (f : PyFile) (h : fileName f = "analyzer.py") :
    analyze m (xs ++ f :: ys) = analyze m (xs ++ ys) :=
  analyzeFrom_skip m f h xs ys ([], [])

theorem c10_analyzer_basename_skipped_witness :
    fileName exTool = "analyzer.py"
    ∧ analyze exModel ([exView] ++ exTool :: [exService])
        = analyze exModel ([exView] ++ [exService]) :=
  ⟨rfl, c10_analyzer_basename_skipped exModel [exView] [exService] exTool rfl⟩
